import Mathlib

set_option maxRecDepth 8192

/-!
# Shallow embedding of the `elf32_rs` ELF32 reader (`src/main.rs`)

The Rust program reads a 32-bit ELF image from a seekable byte source
(`BufReader<R: Read + Seek>`): it parses the 52-byte `ElfHeader`, then the
program-header table (`phnum` records of `phentsize` bytes at `phoff`),
then the section-header table (`shnum` records of `shentsize` bytes at
`shoff`), and can extract a segment's on-disk bytes
(`Elf::read_program_bytes`).

The byte source is modelled as a list of bytes plus a cursor. A possible
device fault (`failAt`) models the external stream failing (spec §7
`IoError`: disk error etc.); a healthy in-memory stream has `failAt = none`.
Machine integers are `Nat`s assembled from bytes in the host's native byte
order, instantiated as little-endian; the parser applies no byte-order
conversion, so every theorem below is independent of that instantiation.
`std::mem::zeroed` initialization of the record structs is modelled by
reading byte `i` of a record buffer with default `0` when the buffer is
shorter than the record.
-/

/-- Error taxonomy of the embedded I/O layer. `unexpectedEof` is the error
`read_exact` returns on a short read (a truncated record); `deviceFault` is
an underlying failure of the byte source itself. -/
inductive IoError where
  | unexpectedEof
  | deviceFault
  deriving DecidableEq, Repr

/-- The seekable byte source: the bytes behind the `BufReader`, the cursor
position, and an optional device fault. `failAt = some k` means any read
touching byte position `k` or later fails with `deviceFault`; `none` is a
healthy stream. -/
structure ByteStream where
  data : List Nat
  pos : Nat
  failAt : Option Nat
  deriving DecidableEq, Repr

/-- Whether the device fault fires at position `p`. -/
def faultyAt (f : Option Nat) (p : Nat) : Bool :=
  match f with
  | none => false
  | some k => decide (k ≤ p)

/-- Read one byte at the cursor: device fault first, then the byte if the
cursor is inside the data, else end-of-stream. -/
def readByte (s : ByteStream) : Except IoError (Nat × ByteStream) :=
  if faultyAt s.failAt s.pos then .error .deviceFault
  else
    match s.data.get? s.pos with
    | some b => .ok (b, ⟨s.data, s.pos + 1, s.failAt⟩)
    | none => .error .unexpectedEof

/-- `read_exact` on an `n`-byte slice: reads exactly `n` bytes or fails;
a stream that ends before `n` bytes were delivered yields `unexpectedEof`
(Rust's `ErrorKind::UnexpectedEof`), and the partially filled buffer is
discarded because the error propagates. -/
def readExact (s : ByteStream) : Nat → Except IoError (List Nat × ByteStream)
  | 0 => .ok ([], s)
  | n + 1 =>
    match readByte s with
    | .error e => .error e
    | .ok (b, s1) =>
      match readExact s1 n with
      | .error e => .error e
      | .ok (bs, s2) => .ok (b :: bs, s2)

/-- `seek(SeekFrom::Start(off))`: repositions the cursor. Seeking is
allowed to move past end-of-stream and never fails (`Seek` semantics for
files and cursors). -/
def seekStart (s : ByteStream) (off : Nat) : ByteStream :=
  ⟨s.data, off, s.failAt⟩

/-- `take(n).read_to_end(&mut out)`: reads *up to* `n` bytes; hitting
end-of-stream early is success with the bytes read so far, not an error.
Only a device fault makes it fail. -/
def readUpTo (s : ByteStream) : Nat → Except IoError (List Nat × ByteStream)
  | 0 => .ok ([], s)
  | n + 1 =>
    if faultyAt s.failAt s.pos then .error .deviceFault
    else
      match s.data.get? s.pos with
      | some b =>
        match readUpTo ⟨s.data, s.pos + 1, s.failAt⟩ n with
        | .error e => .error e
        | .ok (bs, s2) => .ok (b :: bs, s2)
      | none => .ok ([], s)

/-- Byte `i` of a record buffer. Positions beyond the buffer read the
zero-initialized record storage (`std::mem::zeroed`), hence default `0`. -/
def byteAt (bs : List Nat) (i : Nat) : Nat :=
  bs.getD i 0

/-- A `u16` field at byte offset `i`, native byte order (little-endian
host instantiation). -/
def u16at (bs : List Nat) (i : Nat) : Nat :=
  byteAt bs i + 256 * byteAt bs (i + 1)

/-- A `u32` field at byte offset `i`, native byte order (little-endian
host instantiation). -/
def u32at (bs : List Nat) (i : Nat) : Nat :=
  byteAt bs i + 256 * byteAt bs (i + 1) + 65536 * byteAt bs (i + 2) +
    16777216 * byteAt bs (i + 3)

/-- The `#[repr(C, packed)] struct ElfHeader` of the source, fields in
declaration order. -/
structure ElfHeader where
  ident : List Nat
  typ : Nat
  machine : Nat
  version : Nat
  entry : Nat
  phoff : Nat
  shoff : Nat
  flags : Nat
  ehsize : Nat
  phentsize : Nat
  phnum : Nat
  shentsize : Nat
  shnum : Nat
  shstrndx : Nat
  deriving DecidableEq, Repr

/-- `size_of::<ElfHeader>()` for the packed struct: 16 + 2·2 + 5·4 + 6·2. -/
def elfHeaderSize : Nat := 52

/-- Interpretation of a raw 52-byte buffer as the packed `ElfHeader`:
field-by-field at the packed offsets, no padding, native byte order. -/
def decodeElfHeader (bs : List Nat) : ElfHeader where
  ident := [byteAt bs 0, byteAt bs 1, byteAt bs 2, byteAt bs 3, byteAt bs 4,
    byteAt bs 5, byteAt bs 6, byteAt bs 7, byteAt bs 8, byteAt bs 9,
    byteAt bs 10, byteAt bs 11, byteAt bs 12, byteAt bs 13, byteAt bs 14,
    byteAt bs 15]
  typ := u16at bs 16
  machine := u16at bs 18
  version := u32at bs 20
  entry := u32at bs 24
  phoff := u32at bs 28
  shoff := u32at bs 32
  flags := u32at bs 36
  ehsize := u16at bs 40
  phentsize := u16at bs 42
  phnum := u16at bs 44
  shentsize := u16at bs 46
  shnum := u16at bs 48
  shstrndx := u16at bs 50

/-- `ElfHeader::read_elf_header`: fill the 52-byte struct image from the
stream at the current cursor with `read_exact`, reinterpreting the bytes
as the packed fields. -/
def read_elf_header (s : ByteStream) : Except IoError (ElfHeader × ByteStream) :=
  match readExact s elfHeaderSize with
  | .error e => .error e
  | .ok (bs, s1) => .ok (decodeElfHeader bs, s1)

/-- The `#[repr(C, packed)] struct ProgramHeader`, fields in declaration
order, all `u32`. -/
structure ProgramHeader where
  typ : Nat
  offset : Nat
  vaddr : Nat
  paddr : Nat
  filesz : Nat
  memsz : Nat
  flags : Nat
  align : Nat
  deriving DecidableEq, Repr

/-- `size_of::<ProgramHeader>()`: 8 · 4 bytes. -/
def phNaturalSize : Nat := 32

/-- Interpretation of a raw buffer as the packed `ProgramHeader`. The
struct is zero-initialized, then the buffer's bytes overwrite its storage
from offset 0, so a buffer shorter than 32 bytes leaves the tail fields
zero, and only the first 32 bytes of a longer buffer land in the fields. -/
def decodeProgramHeader (bs : List Nat) : ProgramHeader where
  typ := u32at bs 0
  offset := u32at bs 4
  vaddr := u32at bs 8
  paddr := u32at bs 12
  filesz := u32at bs 16
  memsz := u32at bs 20
  flags := u32at bs 24
  align := u32at bs 28

/-- The loop body of `ProgramHeader::read_program_headers`: `n` times,
zero a fresh record, `read_exact` `entsize` bytes over it, push it. -/
def readProgramTable (s : ByteStream) (entsize : Nat) :
    Nat → Except IoError (List ProgramHeader × ByteStream)
  | 0 => .ok ([], s)
  | n + 1 =>
    match readExact s entsize with
    | .error e => .error e
    | .ok (bs, s1) =>
      match readProgramTable s1 entsize n with
      | .error e => .error e
      | .ok (rest, s2) => .ok (decodeProgramHeader bs :: rest, s2)

/-- `ProgramHeader::read_program_headers`: seek to `phoff`, then read
`phnum` records of `phentsize` bytes each. -/
def read_program_headers (s : ByteStream) (eh : ElfHeader) :
    Except IoError (List ProgramHeader × ByteStream) :=
  readProgramTable (seekStart s eh.phoff) eh.phentsize eh.phnum

/-- The `#[repr(C, packed)] struct SectionHeader`: a 4-byte `name` array
followed by nine `u32` fields. -/
structure SectionHeader where
  name : List Nat
  typ : Nat
  flags : Nat
  addr : Nat
  offset : Nat
  size : Nat
  link : Nat
  info : Nat
  addralign : Nat
  entsize : Nat
  deriving DecidableEq, Repr

/-- `size_of::<SectionHeader>()`: 4 + 9 · 4 bytes. -/
def shNaturalSize : Nat := 40

/-- Interpretation of a raw buffer as the packed `SectionHeader`, with the
same zero-initialization semantics as `decodeProgramHeader`. -/
def decodeSectionHeader (bs : List Nat) : SectionHeader where
  name := [byteAt bs 0, byteAt bs 1, byteAt bs 2, byteAt bs 3]
  typ := u32at bs 4
  flags := u32at bs 8
  addr := u32at bs 12
  offset := u32at bs 16
  size := u32at bs 20
  link := u32at bs 24
  info := u32at bs 28
  addralign := u32at bs 32
  entsize := u32at bs 36

/-- The loop body of `SectionHeader::read_section_headers`. -/
def readSectionTable (s : ByteStream) (entsize : Nat) :
    Nat → Except IoError (List SectionHeader × ByteStream)
  | 0 => .ok ([], s)
  | n + 1 =>
    match readExact s entsize with
    | .error e => .error e
    | .ok (bs, s1) =>
      match readSectionTable s1 entsize n with
      | .error e => .error e
      | .ok (rest, s2) => .ok (decodeSectionHeader bs :: rest, s2)

/-- `SectionHeader::read_section_headers`: seek to `shoff`, then read
`shnum` records of `shentsize` bytes each. -/
def read_section_headers (s : ByteStream) (eh : ElfHeader) :
    Except IoError (List SectionHeader × ByteStream) :=
  readSectionTable (seekStart s eh.shoff) eh.shentsize eh.shnum

/-- The `Elf` image: the byte source (the source struct borrows the
`BufReader`; here it is carried by value) plus the three parsed parts. -/
structure Elf where
  buffer : ByteStream
  elf_header : ElfHeader
  program_headers : List ProgramHeader
  section_headers : List SectionHeader
  deriving DecidableEq, Repr

/-- `Elf::load_buffer`: header, then program headers, then section
headers, each `?`-propagating its error; on success the image owns the
stream as the last parser left it. -/
def load_buffer (s : ByteStream) : Except IoError Elf :=
  match read_elf_header s with
  | .error e => .error e
  | .ok (eh, s1) =>
    match read_program_headers s1 eh with
    | .error e => .error e
    | .ok (phs, s2) =>
      match read_section_headers s2 eh with
      | .error e => .error e
      | .ok (shs, s3) => .ok ⟨s3, eh, phs, shs⟩

/-- `Elf::read_program_bytes`. `self.program_headers.get(idx).unwrap()`
panics — aborts the process — on an out-of-range index, modelled by
`none`. Otherwise it seeks to the header's `offset` and reads up to
`filesz` bytes with `take(filesz).read_to_end(..)`, returning them with
the stream as the read left it. -/
def read_program_bytes (e : Elf) (idx : Nat) :
    Option (Except IoError (List Nat × ByteStream)) :=
  match e.program_headers.get? idx with
  | none => none
  | some ph => some (readUpTo (seekStart e.buffer ph.offset) ph.filesz)

/-- Relative byte offsets the raw slice
`slice::from_raw_parts_mut(&mut header as *mut u8, entsize)` spans, i.e.
the offsets `read_exact` writes through it. -/
def rawSliceWrites (entsize : Nat) : List Nat :=
  List.range entsize

/-- Relative byte offsets belonging to a record's own storage of natural
size `natSize`. -/
def recordStorage (natSize : Nat) : List Nat :=
  List.range natSize

deriving instance DecidableEq for Except

/-- Outcome of a `main` run: `aborts` is a panic (unwinds with a non-zero
process status), `exitFailure` is `main` returning `Err` (non-zero status
with a message), `exitSuccess` is status zero after printing the image and
the result of the first segment extraction. -/
inductive MainOutcome where
  | aborts
  | exitFailure (e : IoError)
  | exitSuccess (elf : Elf) (segment : Except IoError (List Nat × ByteStream))
  deriving DecidableEq, Repr

/-- `fn main`: `args[1]` panics when no argument is given; `File::open`
and `load_buffer` propagate their errors with `?`; the `Result` of
`read_program_bytes(0)` is *not* propagated — it is printed, and `main`
then returns `Ok(())`. The opened file is abstracted as the
already-produced `Except` of `File::open`. (Named `mainRun` because Lean
reserves the name `main` for an `IO` entry point.) -/
def mainRun (args : List String) (file : Except IoError ByteStream) : MainOutcome :=
  match args.get? 1 with
  | none => .aborts
  | some _ =>
    match file with
    | .error e => .exitFailure e
    | .ok s =>
      match load_buffer s with
      | .error e => .exitFailure e
      | .ok elf =>
        match read_program_bytes elf 0 with
        | none => .aborts
        | some r => .exitSuccess elf r

/-! ## Stream-level lemmas (healthy stream, `failAt = none`) -/

/-- On a healthy stream, a read inside the data returns the byte at the
cursor and advances the cursor. -/
theorem readByte_ok (data : List Nat) (pos : Nat) (hlt : pos < data.length) :
    readByte ⟨data, pos, none⟩ = .ok (data[pos], ⟨data, pos + 1, none⟩) := by
  unfold readByte
  simp [faultyAt, List.getElem?_eq_getElem hlt]

/-- On a healthy stream, a read at or past end-of-stream reports EOF. -/
theorem readByte_eof (data : List Nat) (pos : Nat) (h : data.length <= pos) :
    readByte ⟨data, pos, none⟩ = .error .unexpectedEof := by
  unfold readByte
  simp [faultyAt, List.getElem?_eq_none h]

/-- `read_exact` on a healthy stream with enough data returns exactly the
`n` bytes at the cursor and advances the cursor by `n`. -/
theorem readExact_ok (data : List Nat) (pos n : Nat) (h : pos + n <= data.length) :
    readExact ⟨data, pos, none⟩ n =
      .ok ((data.drop pos).take n, ⟨data, pos + n, none⟩) := by
  induction n generalizing pos with
  | zero => simp [readExact]
  | succ n ih =>
    have hlt : pos < data.length := by omega
    have hrec := ih (pos + 1) (by omega)
    have hdrop : data.drop pos = data[pos] :: data.drop (pos + 1) :=
      List.drop_eq_getElem_cons hlt
    have harith : pos + 1 + n = pos + (n + 1) := by omega
    rw [readExact, readByte_ok data pos hlt]
    simp only [hrec]
    simp only [hdrop]
    simp only [harith]
    simp only [List.take_succ_cons]

/-- `read_exact` of at least one byte on a healthy stream that holds fewer
than the requested bytes fails with `unexpectedEof`. -/
theorem readExact_eof (data : List Nat) (pos n : Nat) (h1 : 1 <= n)
    (h2 : data.length < pos + n) :
    readExact ⟨data, pos, none⟩ n = .error .unexpectedEof := by
  induction n generalizing pos with
  | zero => omega
  | succ n ih =>
    by_cases hlt : pos < data.length
    · have hrec := ih (pos + 1) (by omega) (by omega)
      rw [readExact, readByte_ok data pos hlt]
      simp only [hrec]
    · rw [readExact, readByte_eof data pos (by omega)]

/-- `take(n).read_to_end` on a healthy stream with enough data behaves
like `read_exact`: the `n` bytes at the cursor, cursor advanced by `n`. -/
theorem readUpTo_ok (data : List Nat) (pos n : Nat) (h : pos + n <= data.length) :
    readUpTo ⟨data, pos, none⟩ n =
      .ok ((data.drop pos).take n, ⟨data, pos + n, none⟩) := by
  induction n generalizing pos with
  | zero => simp [readUpTo]
  | succ n ih =>
    have hlt : pos < data.length := by omega
    have hrec := ih (pos + 1) (by omega)
    have hdrop : data.drop pos = data[pos] :: data.drop (pos + 1) :=
      List.drop_eq_getElem_cons hlt
    have harith : pos + 1 + n = pos + (n + 1) := by omega
    rw [readUpTo]
    simp only [faultyAt, List.get?_eq_getElem?, List.getElem?_eq_getElem hlt,
      Bool.false_eq_true, if_false]
    simp only [hrec]
    simp only [hdrop]
    simp only [harith]
    simp only [List.take_succ_cons]

/-- `take(n).read_to_end` on a healthy stream always succeeds, returning
the at most `n` bytes that remain at the cursor (never an error, even when
fewer than `n` bytes remain). -/
theorem readUpTo_total (data : List Nat) (pos n : Nat) :
    ∃ p2, readUpTo ⟨data, pos, none⟩ n =
      .ok ((data.drop pos).take n, ⟨data, p2, none⟩) := by
  induction n generalizing pos with
  | zero => exact ⟨pos, by simp [readUpTo]⟩
  | succ n ih =>
    by_cases hlt : pos < data.length
    · obtain ⟨p2, hrec⟩ := ih (pos + 1)
      have hdrop : data.drop pos = data[pos] :: data.drop (pos + 1) :=
        List.drop_eq_getElem_cons hlt
      refine ⟨p2, ?_⟩
      rw [readUpTo]
      simp only [faultyAt, List.get?_eq_getElem?, List.getElem?_eq_getElem hlt,
        Bool.false_eq_true, if_false]
      simp only [hrec]
      simp only [hdrop]
      simp only [List.take_succ_cons]
    · have hdrop : data.drop pos = [] := List.drop_eq_nil_of_le (by omega)
      refine ⟨pos, ?_⟩
      rw [readUpTo]
      simp only [faultyAt, List.get?_eq_getElem?,
        List.getElem?_eq_none (l := data) (n := pos) (by omega),
        Bool.false_eq_true, if_false]
      simp only [hdrop, List.take_nil]

/-! ## Table-walk lemmas -/

/-- The `phnum`-iteration read loop on a healthy stream with enough data
returns, in order, the decodings of the consecutive `entsize`-byte chunks
starting at the cursor, leaving the cursor after the table. -/
theorem readProgramTable_ok (data : List Nat) (entsize : Nat) :
    ∀ (n pos : Nat), pos + n * entsize <= data.length →
      readProgramTable ⟨data, pos, none⟩ entsize n =
        .ok (((List.range n).map fun k =>
            decodeProgramHeader ((data.drop (pos + k * entsize)).take entsize)),
          ⟨data, pos + n * entsize, none⟩) := by
  intro n
  induction n with
  | zero => intro pos h; simp [readProgramTable]
  | succ n ih =>
    intro pos h
    rw [Nat.succ_mul] at h
    have h1 : pos + entsize <= data.length := by omega
    have h2 : pos + entsize + n * entsize <= data.length := by omega
    rw [readProgramTable, readExact_ok data pos entsize h1]
    simp only [ih (pos + entsize) h2]
    rw [List.range_succ_eq_map, List.map_cons, List.map_map]
    have hhead : pos + 0 * entsize = pos := by omega
    have htail : ((List.range n).map fun k =>
        decodeProgramHeader ((data.drop (pos + entsize + k * entsize)).take entsize)) =
        (List.range n).map ((fun k =>
          decodeProgramHeader ((data.drop (pos + k * entsize)).take entsize)) ∘ Nat.succ) := by
      apply List.map_congr_left
      intro k _
      have : pos + entsize + k * entsize = pos + (k + 1) * entsize := by
        rw [Nat.succ_mul]; omega
      simp [Function.comp, this, Nat.succ_eq_add_one]
    rw [hhead] at *
    simp only [htail]
    have hpos : pos + entsize + n * entsize = pos + (n + 1) * entsize := by
      rw [Nat.succ_mul]; omega
    rw [hpos, hhead]

theorem readProgramTable_short (data : List Nat) (entsize : Nat) :
    ∀ (n pos : Nat), 0 < n * entsize → data.length < pos + n * entsize →
      readProgramTable ⟨data, pos, none⟩ entsize n = .error .unexpectedEof := by
  intro n
  induction n with
  | zero => intro pos h0 h; omega
  | succ n ih =>
    intro pos h0 h
    have he : 0 < entsize := by
      rcases Nat.eq_zero_or_pos entsize with hz | hp
      · rw [hz, Nat.mul_zero] at h0; omega
      · exact hp
    rw [Nat.succ_mul] at h0 h
    by_cases hle : pos + entsize <= data.length
    · have hrec := ih (pos + entsize) (by omega) (by omega)
      rw [readProgramTable, readExact_ok data pos entsize hle]
      simp only [hrec]
    · rw [readProgramTable, readExact_eof data pos entsize (by omega) (by omega)]

/-- Identical to `readProgramTable_ok` for the section-header loop. -/
theorem readSectionTable_ok (data : List Nat) (entsize : Nat) :
    ∀ (n pos : Nat), pos + n * entsize <= data.length →
      readSectionTable ⟨data, pos, none⟩ entsize n =
        .ok (((List.range n).map fun k =>
            decodeSectionHeader ((data.drop (pos + k * entsize)).take entsize)),
          ⟨data, pos + n * entsize, none⟩) := by
  intro n
  induction n with
  | zero => intro pos h; simp [readSectionTable]
  | succ n ih =>
    intro pos h
    rw [Nat.succ_mul] at h
    have h1 : pos + entsize <= data.length := by omega
    have h2 : pos + entsize + n * entsize <= data.length := by omega
    rw [readSectionTable, readExact_ok data pos entsize h1]
    simp only [ih (pos + entsize) h2]
    rw [List.range_succ_eq_map, List.map_cons, List.map_map]
    have hhead : pos + 0 * entsize = pos := by omega
    have htail : ((List.range n).map fun k =>
        decodeSectionHeader ((data.drop (pos + entsize + k * entsize)).take entsize)) =
        (List.range n).map ((fun k =>
          decodeSectionHeader ((data.drop (pos + k * entsize)).take entsize)) ∘ Nat.succ) := by
      apply List.map_congr_left
      intro k _
      have : pos + entsize + k * entsize = pos + (k + 1) * entsize := by
        rw [Nat.succ_mul]; omega
      simp [Function.comp, this, Nat.succ_eq_add_one]
    rw [hhead] at *
    simp only [htail]
    have hpos : pos + entsize + n * entsize = pos + (n + 1) * entsize := by
      rw [Nat.succ_mul]; omega
    rw [hpos, hhead]

theorem readSectionTable_short (data : List Nat) (entsize : Nat) :
    ∀ (n pos : Nat), 0 < n * entsize → data.length < pos + n * entsize →
      readSectionTable ⟨data, pos, none⟩ entsize n = .error .unexpectedEof := by
  intro n
  induction n with
  | zero => intro pos h0 h; omega
  | succ n ih =>
    intro pos h0 h
    have he : 0 < entsize := by
      rcases Nat.eq_zero_or_pos entsize with hz | hp
      · rw [hz, Nat.mul_zero] at h0; omega
      · exact hp
    rw [Nat.succ_mul] at h0 h
    by_cases hle : pos + entsize <= data.length
    · have hrec := ih (pos + entsize) (by omega) (by omega)
      rw [readSectionTable, readExact_ok data pos entsize hle]
      simp only [hrec]
    · rw [readSectionTable, readExact_eof data pos entsize (by omega) (by omega)]

/-! ## Byte-layout serializers (spec side of the round-trip property)

The repository contains no writer; these lay out field values per the
spec's byte layout contract (§6): declared field order and widths, no
padding, native byte order (little-endian host instantiation). -/

/-- A `u16` laid out as 2 bytes, native byte order. -/
def encodeU16 (x : Nat) : List Nat := [x % 256, x / 256 % 256]

/-- A `u32` laid out as 4 bytes, native byte order. -/
def encodeU32 (x : Nat) : List Nat :=
  [x % 256, x / 256 % 256, x / 65536 % 256, x / 16777216 % 256]

/-- An `ElfHeader` laid out as its 52-byte packed image. -/
def encodeElfHeader (eh : ElfHeader) : List Nat :=
  eh.ident ++ encodeU16 eh.typ ++ encodeU16 eh.machine ++ encodeU32 eh.version ++
    encodeU32 eh.entry ++ encodeU32 eh.phoff ++ encodeU32 eh.shoff ++ encodeU32 eh.flags ++
    encodeU16 eh.ehsize ++ encodeU16 eh.phentsize ++ encodeU16 eh.phnum ++
    encodeU16 eh.shentsize ++ encodeU16 eh.shnum ++ encodeU16 eh.shstrndx

/-- A `ProgramHeader` laid out as its 32-byte packed image. -/
def encodeProgramHeader (ph : ProgramHeader) : List Nat :=
  encodeU32 ph.typ ++ encodeU32 ph.offset ++ encodeU32 ph.vaddr ++ encodeU32 ph.paddr ++
    encodeU32 ph.filesz ++ encodeU32 ph.memsz ++ encodeU32 ph.flags ++ encodeU32 ph.align

/-- A `SectionHeader` laid out as its 40-byte packed image (the 4 `name`
bytes verbatim, then the nine `u32` fields). -/
def encodeSectionHeader (sh : SectionHeader) : List Nat :=
  sh.name ++ encodeU32 sh.typ ++ encodeU32 sh.flags ++ encodeU32 sh.addr ++
    encodeU32 sh.offset ++ encodeU32 sh.size ++ encodeU32 sh.link ++ encodeU32 sh.info ++
    encodeU32 sh.addralign ++ encodeU32 sh.entsize

/-! ## Concrete fixtures used by witnesses and counterexamples -/

/-- An all-zero `ElfHeader` value (only used as the header field of images
whose header content is irrelevant to the property at hand). -/
def ehZero : ElfHeader := ⟨[], 0, 0, 0, 0, 0, 0, 0, 0, 0, 0, 0, 0, 0⟩

/-- A loaded image with a 2-entry program-header table. -/
def elfTwoSegments : Elf :=
  ⟨⟨List.replicate 100 7, 0, none⟩, ehZero,
    [⟨0, 0, 0, 0, 1, 0, 0, 0⟩, ⟨0, 1, 0, 0, 1, 0, 0, 0⟩], []⟩

/-- A loaded image whose single program header claims `filesz = 10` bytes
at offset 0, over a stream that only holds 5 bytes. -/
def elfShortSegment : Elf :=
  ⟨⟨[1, 2, 3, 4, 5], 0, none⟩, ehZero, [⟨0, 0, 0, 0, 10, 0, 0, 0⟩], []⟩

/-- A loaded image whose single program header addresses bytes 2..4 of a
6-byte stream (`offset = 2`, `filesz = 3`). -/
def elfMidSegment : Elf :=
  ⟨⟨[10, 11, 12, 13, 14, 15], 0, none⟩, ehZero, [⟨0, 2, 0, 0, 3, 0, 0, 0⟩], []⟩

/-- A header declaring empty tables (`phnum = shnum = 0`) whose table
offsets (100) lie past the end of a 10-byte stream. -/
def ehEmptyTablesPastEof : ElfHeader :=
  ⟨List.replicate 16 0, 0, 0, 0, 0, 100, 100, 0, 52, 32, 0, 40, 0, 0⟩

/-- A header declaring one program header at `phoff = 100` and one section
header at `shoff = 0`, for a stream of fewer than 40 bytes both table
walks must fail on. -/
def ehTablesBeyondEof : ElfHeader :=
  ⟨List.replicate 16 0, 0, 0, 0, 0, 100, 0, 0, 52, 32, 1, 40, 1, 0⟩

/-- Header of the faulty-device scenario: one program header at
`phoff = 52` (right after the header), no section headers. -/
def ehFaulty : ElfHeader :=
  ⟨List.replicate 16 0, 0, 0, 0, 0, 52, 0, 0, 52, 32, 1, 40, 0, 0⟩

/-- Its single program header: segment of 4 bytes at file offset 84. -/
def phFaulty : ProgramHeader := ⟨0, 84, 0, 0, 4, 0, 0, 0⟩

/-- The 84 bytes the headers of the faulty-device scenario occupy. -/
def dataFaulty : List Nat := encodeElfHeader ehFaulty ++ encodeProgramHeader phFaulty

/-- A stream whose device fails from byte position 84 on: all header
reads (positions 0..83) succeed, any read of the segment itself fails. -/
def streamFaulty : ByteStream := ⟨dataFaulty, 0, some 84⟩

/-- The image `load_buffer` produces from `streamFaulty` (the section
table walk leaves the cursor at `shoff = 0`). -/
def elfFaulty : Elf := ⟨⟨dataFaulty, 0, some 84⟩, ehFaulty, [phFaulty], []⟩

/-- A well-formed minimal ELF32 image: header, then one program header at
52, then one section header at 84; 124 bytes in total. -/
def ehValid : ElfHeader :=
  ⟨[127, 69, 76, 70, 1, 1, 1, 0, 0, 0, 0, 0, 0, 0, 0, 0],
    2, 3, 1, 4096, 52, 84, 0, 52, 32, 1, 40, 1, 0⟩

/-- Its program header. -/
def phValid : ProgramHeader := ⟨1, 116, 4096, 4096, 8, 8, 5, 4⟩

/-- Its section header. -/
def shValid : SectionHeader := ⟨[1, 0, 0, 0], 3, 0, 0, 116, 8, 0, 0, 4, 0⟩

/-- The full 124-byte valid image. -/
def dataValid : List Nat :=
  encodeElfHeader ehValid ++ encodeProgramHeader phValid ++ encodeSectionHeader shValid

/-! ## Claim theorems -/

/-- C1 (code evaluation at the failing input): against the 2-entry
program-header table of `elfTwoSegments`, segment extraction at index 2
(= N) and at index 5 hits `.get(idx).unwrap()` and aborts the process
(modelled `none`); it does not produce a typed out-of-range error value. -/
theorem read_program_bytes_out_of_range_aborts :
    read_program_bytes elfTwoSegments 2 = none ∧
    read_program_bytes elfTwoSegments 5 = none :=
  ⟨rfl, rfl⟩

/-- C2 (counterexample): the single program header of `elfShortSegment`
declares `filesz = 10` at offset 0 over a 5-byte stream, yet extraction
returns success with only the 5 remaining bytes — not an I/O/short-read
error as the claim states. -/
theorem read_program_bytes_short_counterexample :
    read_program_bytes elfShortSegment 0 =
      some (.ok ([1, 2, 3, 4, 5], ⟨[1, 2, 3, 4, 5], 5, none⟩)) ∧
    (5 : Nat) < 10 :=
  ⟨rfl, by decide⟩

/-- C2 (amended): on a healthy stream, when fewer than `filesz` bytes lie
at the segment's offset (and `filesz > 0`), extraction at a valid index
*succeeds* with exactly the bytes that remain there — strictly fewer than
`filesz` — because `take(filesz).read_to_end` treats early end-of-stream
as success. -/
theorem read_program_bytes_short_success (e : Elf) (idx : Nat) (ph : ProgramHeader)
    (hidx : e.program_headers.get? idx = some ph)
    (hfail : e.buffer.failAt = none)
    (hshort : e.buffer.data.length < ph.offset + ph.filesz)
    (hpos : 0 < ph.filesz) :
    ∃ p2, read_program_bytes e idx =
      some (.ok ((e.buffer.data.drop ph.offset).take ph.filesz,
        ⟨e.buffer.data, p2, none⟩)) ∧
      ((e.buffer.data.drop ph.offset).take ph.filesz).length < ph.filesz := by
  obtain ⟨p2, hup⟩ := readUpTo_total e.buffer.data ph.offset ph.filesz
  have hseek : seekStart e.buffer ph.offset = ⟨e.buffer.data, ph.offset, none⟩ := by
    rw [seekStart, hfail]
  refine ⟨p2, ?_, ?_⟩
  · simp only [read_program_bytes, hidx]
    rw [hseek, hup]
  · rw [List.length_take, List.length_drop]
    omega

/-- C2 (witness for the amended theorem): instantiated on
`elfShortSegment`. -/
theorem read_program_bytes_short_success_witness :
    ∃ p2, read_program_bytes elfShortSegment 0 =
      some (.ok ((([1, 2, 3, 4, 5] : List Nat).drop 0).take 10,
        ⟨[1, 2, 3, 4, 5], p2, none⟩)) ∧
      ((([1, 2, 3, 4, 5] : List Nat).drop 0).take 10).length < 10 :=
  read_program_bytes_short_success elfShortSegment 0 ⟨0, 0, 0, 0, 10, 0, 0, 0⟩
    rfl rfl (by decide) (by decide)

/-- C3: on a healthy stream holding at least `offset + filesz` bytes,
extraction at a valid index returns exactly the `filesz` bytes starting at
file offset `offset` of that program header. -/
theorem read_program_bytes_exact (e : Elf) (idx : Nat) (ph : ProgramHeader)
    (hidx : e.program_headers.get? idx = some ph)
    (hfail : e.buffer.failAt = none)
    (hlen : ph.offset + ph.filesz <= e.buffer.data.length) :
    read_program_bytes e idx =
      some (.ok ((e.buffer.data.drop ph.offset).take ph.filesz,
        ⟨e.buffer.data, ph.offset + ph.filesz, none⟩)) ∧
    ((e.buffer.data.drop ph.offset).take ph.filesz).length = ph.filesz := by
  have hseek : seekStart e.buffer ph.offset = ⟨e.buffer.data, ph.offset, none⟩ := by
    rw [seekStart, hfail]
  constructor
  · simp only [read_program_bytes, hidx]
    rw [hseek, readUpTo_ok e.buffer.data ph.offset ph.filesz hlen]
  · rw [List.length_take, List.length_drop]
    omega

/-- C3 (witness): instantiated on `elfMidSegment`: bytes 2..4 of the
6-byte stream. -/
theorem read_program_bytes_exact_witness :
    read_program_bytes elfMidSegment 0 =
      some (.ok ((([10, 11, 12, 13, 14, 15] : List Nat).drop 2).take 3,
        ⟨[10, 11, 12, 13, 14, 15], 2 + 3, none⟩)) ∧
    ((([10, 11, 12, 13, 14, 15] : List Nat).drop 2).take 3).length = 3 :=
  read_program_bytes_exact elfMidSegment 0 ⟨0, 2, 0, 0, 3, 0, 0, 0⟩ rfl rfl (by decide)

/-- C6: a healthy stream holding fewer than 52 bytes from offset 0 makes
ELF-header parsing return the truncated-record error `unexpectedEof`; it
is a total function (no panic) and never returns a zero-filled header. -/
theorem read_elf_header_truncated (data : List Nat) (h : data.length < 52) :
    read_elf_header ⟨data, 0, none⟩ = .error .unexpectedEof := by
  rw [read_elf_header, show elfHeaderSize = 52 from rfl,
    readExact_eof data 0 52 (by omega) (by omega)]

/-- C6 (witness): the spec's 20-byte-file example. -/
theorem read_elf_header_truncated_witness :
    read_elf_header ⟨List.replicate 20 0, 0, none⟩ = .error .unexpectedEof :=
  read_elf_header_truncated (List.replicate 20 0) (by decide)

/-- C5: `load_buffer` runs the three parses in the fixed order header →
program headers → section headers; the first error from any sub-parser is
returned as the whole result (fail-fast, no partial image), and on success
the image holds exactly the three parsed results. -/
theorem load_buffer_fail_fast (s : ByteStream) :
    (∀ e, read_elf_header s = .error e → load_buffer s = .error e) ∧
    (∀ eh s1 e, read_elf_header s = .ok (eh, s1) →
      read_program_headers s1 eh = .error e → load_buffer s = .error e) ∧
    (∀ eh s1 phs s2 e, read_elf_header s = .ok (eh, s1) →
      read_program_headers s1 eh = .ok (phs, s2) →
      read_section_headers s2 eh = .error e → load_buffer s = .error e) ∧
    (∀ eh s1 phs s2 shs s3, read_elf_header s = .ok (eh, s1) →
      read_program_headers s1 eh = .ok (phs, s2) →
      read_section_headers s2 eh = .ok (shs, s3) →
      load_buffer s = .ok ⟨s3, eh, phs, shs⟩) := by
  refine ⟨?_, ?_, ?_, ?_⟩
  · intro e h1
    simp only [load_buffer, h1]
  · intro eh s1 e h1 h2
    simp only [load_buffer, h1, h2]
  · intro eh s1 phs s2 e h1 h2 h3
    simp only [load_buffer, h1, h2, h3]
  · intro eh s1 phs s2 shs s3 h1 h2 h3
    simp only [load_buffer, h1, h2, h3]

/-- C5 (witness): on the empty stream the header parse fails with
`unexpectedEof` and `load_buffer` returns exactly that error. -/
theorem load_buffer_fail_fast_witness :
    load_buffer ⟨[], 0, none⟩ = .error .unexpectedEof :=
  (load_buffer_fail_fast ⟨[], 0, none⟩).1 .unexpectedEof rfl

/-- C8 (counterexample): with `phnum = 0` and `phoff = 100` past the end
of a 10-byte stream, program-header table parsing *succeeds* with an
empty table — the claim says parsing must fail whenever the seek target
lies past end-of-stream. -/
theorem empty_table_past_eof_counterexample :
    (List.replicate 10 0).length < ehEmptyTablesPastEof.phoff ∧
    read_program_headers ⟨List.replicate 10 0, 0, none⟩ ehEmptyTablesPastEof =
      .ok ([], ⟨List.replicate 10 0, 100, none⟩) :=
  ⟨by decide, rfl⟩

/-- C8 (amended): the seek itself never fails; table parsing fails with
the short-read error exactly when the `phnum` (resp. `shnum`) reads need a
byte past end-of-stream, i.e. when the table is non-empty
(`count * entsize > 0`) and `offset + count * entsize` exceeds the stream
length — in particular a table walk with `phnum = 0` succeeds with an
empty table even when `phoff` is past end-of-stream. -/
theorem table_parse_short_read (data : List Nat) (p : Nat) (eh : ElfHeader)
    (hpe : 0 < eh.phnum * eh.phentsize)
    (hpo : data.length < eh.phoff + eh.phnum * eh.phentsize)
    (hse : 0 < eh.shnum * eh.shentsize)
    (hso : data.length < eh.shoff + eh.shnum * eh.shentsize) :
    read_program_headers ⟨data, p, none⟩ eh = .error .unexpectedEof ∧
    read_section_headers ⟨data, p, none⟩ eh = .error .unexpectedEof := by
  constructor
  · rw [read_program_headers, seekStart]
    exact readProgramTable_short data eh.phentsize eh.phnum eh.phoff hpe hpo
  · rw [read_section_headers, seekStart]
    exact readSectionTable_short data eh.shentsize eh.shnum eh.shoff hse hso

/-- C8 (witness): a 10-byte stream against `ehTablesBeyondEof` (one
program header at offset 100, one section header at offset 0): both walks
fail with the short-read error. -/
theorem table_parse_short_read_witness :
    read_program_headers ⟨List.replicate 10 0, 0, none⟩ ehTablesBeyondEof =
      .error .unexpectedEof ∧
    read_section_headers ⟨List.replicate 10 0, 0, none⟩ ehTablesBeyondEof =
      .error .unexpectedEof :=
  table_parse_short_read (List.replicate 10 0) 0 ehTablesBeyondEof
    (by decide) (by decide) (by decide) (by decide)

/-- C9 (code evaluation at the failing input `phentsize = 33`): the read
does consume exactly 33 bytes and the record's fields are interpreted from
the natural 32 bytes only, but the raw slice the code builds over the
32-byte record spans relative offset 32 as well — `read_exact` writes one
byte outside the record's own storage, contradicting the claim's safety
part. -/
theorem raw_slice_exceeds_record_storage :
    readProgramTable ⟨List.range 33, 0, none⟩ 33 1 =
      .ok ([decodeProgramHeader (List.range 33)], ⟨List.range 33, 33, none⟩) ∧
    decodeProgramHeader (List.range 33) =
      decodeProgramHeader ((List.range 33).take 32) ∧
    32 ∈ rawSliceWrites 33 ∧ ¬ 32 ∈ recordStorage phNaturalSize := by
  refine ⟨rfl, by decide, by decide, by decide⟩

/-- C10 (counterexample): on `streamFaulty` the load succeeds, the
extraction of the first segment's bytes fails with an I/O error, and yet
the program prints the error value and terminates with status zero
(`exitSuccess`) — the claim requires a non-zero exit on any I/O failure
including one during segment extraction. -/
theorem mainRun_ignores_extraction_error :
    mainRun ["elf32", "file"] (.ok streamFaulty) =
      .exitSuccess elfFaulty (.error .deviceFault) ∧
    read_program_bytes elfFaulty 0 = some (.error .deviceFault) :=
  ⟨rfl, rfl⟩

/-- C10 (amended): the program aborts (non-zero status, panic message) on
a missing argument and on the out-of-range access of `read_program_bytes(0)`;
it exits non-zero with the error on an open or load failure; but when load
succeeds and index 0 exists it always exits with status zero after
printing, even when the extraction result it prints is an I/O error. -/
theorem mainRun_exit_behavior (args : List String) (file : Except IoError ByteStream) :
    (args.get? 1 = none → mainRun args file = .aborts) ∧
    (∀ a e, args.get? 1 = some a → file = .error e →
      mainRun args file = .exitFailure e) ∧
    (∀ a s e, args.get? 1 = some a → file = .ok s → load_buffer s = .error e →
      mainRun args file = .exitFailure e) ∧
    (∀ a s elf, args.get? 1 = some a → file = .ok s → load_buffer s = .ok elf →
      read_program_bytes elf 0 = none → mainRun args file = .aborts) ∧
    (∀ a s elf r, args.get? 1 = some a → file = .ok s → load_buffer s = .ok elf →
      read_program_bytes elf 0 = some r → mainRun args file = .exitSuccess elf r) := by
  refine ⟨?_, ?_, ?_, ?_, ?_⟩
  · intro h1
    simp only [mainRun, h1]
  · intro a e h1 h2
    simp only [mainRun, h1, h2]
  · intro a s e h1 h2 h3
    simp only [mainRun, h1, h2, h3]
  · intro a s elf h1 h2 h3 h4
    simp only [mainRun, h1, h2, h3, h4]
  · intro a s elf r h1 h2 h3 h4
    simp only [mainRun, h1, h2, h3, h4]

/-- C10 (witness for the amended theorem): the faulty-device scenario,
driven through the last conjunct: status zero with the printed error. -/
theorem mainRun_exit_behavior_witness :
    mainRun ["elf32", "file2"] (.ok streamFaulty) =
      .exitSuccess elfFaulty (.error .deviceFault) :=
  (mainRun_exit_behavior ["elf32", "file2"] (.ok streamFaulty)).2.2.2.2
    "file2" streamFaulty elfFaulty (.error .deviceFault) rfl rfl rfl rfl

/-- C4: loading a healthy stream laid out as a valid minimal ELF32 image
(natural entry sizes, both tables in bounds) succeeds and yields exactly
`phnum` program headers and `shnum` section headers, the `k`-th record of
each table being the field-for-field interpretation of the bytes at
`phoff + k*32` (resp. `shoff + k*40`). -/
theorem load_buffer_valid (data : List Nat) (eh : ElfHeader)
    (heh : eh = decodeElfHeader (data.take 52))
    (hlen : 52 <= data.length)
    (hpe : eh.phentsize = 32) (hshe : eh.shentsize = 40)
    (hpb : eh.phoff + eh.phnum * 32 <= data.length)
    (hsb : eh.shoff + eh.shnum * 40 <= data.length) :
    ∃ elf, load_buffer ⟨data, 0, none⟩ = .ok elf ∧
      elf.elf_header = eh ∧
      elf.program_headers.length = eh.phnum ∧
      elf.section_headers.length = eh.shnum ∧
      (∀ k, k < eh.phnum → elf.program_headers.get? k =
        some (decodeProgramHeader ((data.drop (eh.phoff + k * 32)).take 32))) ∧
      (∀ k, k < eh.shnum → elf.section_headers.get? k =
        some (decodeSectionHeader ((data.drop (eh.shoff + k * 40)).take 40))) := by
  have h1 : read_elf_header ⟨data, 0, none⟩ = .ok (eh, ⟨data, 52, none⟩) := by
    rw [read_elf_header, show elfHeaderSize = 52 from rfl,
      readExact_ok data 0 52 (by omega)]
    simp only [List.drop_zero, Nat.zero_add]
    rw [heh]
  have h2 : read_program_headers ⟨data, 52, none⟩ eh =
      .ok (((List.range eh.phnum).map fun k =>
          decodeProgramHeader ((data.drop (eh.phoff + k * 32)).take 32)),
        ⟨data, eh.phoff + eh.phnum * 32, none⟩) := by
    rw [read_program_headers, seekStart, hpe]
    exact readProgramTable_ok data 32 eh.phnum eh.phoff hpb
  have h3 : read_section_headers ⟨data, eh.phoff + eh.phnum * 32, none⟩ eh =
      .ok (((List.range eh.shnum).map fun k =>
          decodeSectionHeader ((data.drop (eh.shoff + k * 40)).take 40)),
        ⟨data, eh.shoff + eh.shnum * 40, none⟩) := by
    rw [read_section_headers, seekStart, hshe]
    exact readSectionTable_ok data 40 eh.shnum eh.shoff hsb
  have hload : load_buffer ⟨data, 0, none⟩ =
      .ok ⟨⟨data, eh.shoff + eh.shnum * 40, none⟩, eh,
        (List.range eh.phnum).map (fun k =>
          decodeProgramHeader ((data.drop (eh.phoff + k * 32)).take 32)),
        (List.range eh.shnum).map (fun k =>
          decodeSectionHeader ((data.drop (eh.shoff + k * 40)).take 40))⟩ := by
    simp only [load_buffer, h1, h2, h3]
  refine ⟨_, hload, rfl, ?_, ?_, ?_, ?_⟩
  · simp
  · simp
  · intro k hk
    simp [List.get?_eq_getElem?, List.getElem?_map, List.getElem?_range hk]
  · intro k hk
    simp [List.get?_eq_getElem?, List.getElem?_map, List.getElem?_range hk]

/-- C4 (witness): the 124-byte `dataValid` image (one program header, one
section header). -/
theorem load_buffer_valid_witness :
    ∃ elf, load_buffer ⟨dataValid, 0, none⟩ = .ok elf ∧
      elf.elf_header = decodeElfHeader (dataValid.take 52) ∧
      elf.program_headers.length = (decodeElfHeader (dataValid.take 52)).phnum ∧
      elf.section_headers.length = (decodeElfHeader (dataValid.take 52)).shnum ∧
      (∀ k, k < (decodeElfHeader (dataValid.take 52)).phnum →
        elf.program_headers.get? k = some (decodeProgramHeader
          ((dataValid.drop ((decodeElfHeader (dataValid.take 52)).phoff + k * 32)).take 32))) ∧
      (∀ k, k < (decodeElfHeader (dataValid.take 52)).shnum →
        elf.section_headers.get? k = some (decodeSectionHeader
          ((dataValid.drop ((decodeElfHeader (dataValid.take 52)).shoff + k * 40)).take 40))) :=
  load_buffer_valid dataValid (decodeElfHeader (dataValid.take 52)) rfl
    (by decide) (by decide) (by decide) (by decide) (by decide)

/-- C7: round-trip — laying out any in-range header field values in the
declared field order and widths, with no padding and native byte order
(`encodeElfHeader`), then parsing that buffer with `read_elf_header`,
reproduces the original field values exactly; no transformation or
byte-order conversion is applied. -/
theorem header_round_trip (i0 i1 i2 i3 i4 i5 i6 i7 i8 i9 i10 i11 i12 i13 i14 i15 : Nat)
    (typ machine version entry phoff shoff flags ehsize phentsize phnum shentsize shnum shstrndx : Nat)
    (ht : typ < 65536) (hm : machine < 65536) (hv : version < 4294967296)
    (hen : entry < 4294967296) (hpo : phoff < 4294967296) (hso : shoff < 4294967296)
    (hf : flags < 4294967296) (hes : ehsize < 65536) (hpe : phentsize < 65536)
    (hpn : phnum < 65536) (hse : shentsize < 65536) (hsn : shnum < 65536)
    (hsx : shstrndx < 65536) :
    read_elf_header
      ⟨encodeElfHeader ⟨[i0, i1, i2, i3, i4, i5, i6, i7, i8, i9, i10, i11, i12, i13, i14, i15],
        typ, machine, version, entry, phoff, shoff, flags, ehsize, phentsize, phnum,
        shentsize, shnum, shstrndx⟩, 0, none⟩ =
      .ok (⟨[i0, i1, i2, i3, i4, i5, i6, i7, i8, i9, i10, i11, i12, i13, i14, i15],
        typ, machine, version, entry, phoff, shoff, flags, ehsize, phentsize, phnum,
        shentsize, shnum, shstrndx⟩,
        ⟨encodeElfHeader ⟨[i0, i1, i2, i3, i4, i5, i6, i7, i8, i9, i10, i11, i12, i13, i14, i15],
          typ, machine, version, entry, phoff, shoff, flags, ehsize, phentsize, phnum,
          shentsize, shnum, shstrndx⟩, 52, none⟩) := by
  have hlen : (encodeElfHeader ⟨[i0, i1, i2, i3, i4, i5, i6, i7, i8, i9, i10, i11, i12, i13,
      i14, i15], typ, machine, version, entry, phoff, shoff, flags, ehsize, phentsize, phnum,
      shentsize, shnum, shstrndx⟩).length = 52 := by
    simp [encodeElfHeader, encodeU16, encodeU32]
  rw [read_elf_header]
  rw [show elfHeaderSize = 52 from rfl]
  rw [readExact_ok _ 0 52 (by rw [hlen])]
  rw [List.drop_zero, List.take_of_length_le (le_of_eq hlen)]
  have hdec : decodeElfHeader (encodeElfHeader ⟨[i0, i1, i2, i3, i4, i5, i6, i7, i8, i9, i10,
      i11, i12, i13, i14, i15], typ, machine, version, entry, phoff, shoff, flags, ehsize,
      phentsize, phnum, shentsize, shnum, shstrndx⟩) =
      ⟨[i0, i1, i2, i3, i4, i5, i6, i7, i8, i9, i10, i11, i12, i13, i14, i15],
        typ, machine, version, entry, phoff, shoff, flags, ehsize, phentsize, phnum,
        shentsize, shnum, shstrndx⟩ := by
    simp [decodeElfHeader, encodeElfHeader, encodeU16, encodeU32, u16at, u32at, byteAt]
    omega
  simp only [hdec, Nat.zero_add]

/-- C7 (witness): a concrete header with the ELF magic in `ident` and
distinct field values round-trips. -/
theorem header_round_trip_witness :
    read_elf_header
      ⟨encodeElfHeader ⟨[127, 69, 76, 70, 1, 1, 1, 0, 0, 0, 0, 0, 0, 0, 0, 0],
        2, 3, 1, 4096, 52, 84, 5, 52, 32, 1, 40, 1, 0⟩, 0, none⟩ =
      .ok (⟨[127, 69, 76, 70, 1, 1, 1, 0, 0, 0, 0, 0, 0, 0, 0, 0],
        2, 3, 1, 4096, 52, 84, 5, 52, 32, 1, 40, 1, 0⟩,
        ⟨encodeElfHeader ⟨[127, 69, 76, 70, 1, 1, 1, 0, 0, 0, 0, 0, 0, 0, 0, 0],
          2, 3, 1, 4096, 52, 84, 5, 52, 32, 1, 40, 1, 0⟩, 52, none⟩) :=
  header_round_trip 127 69 76 70 1 1 1 0 0 0 0 0 0 0 0 0 2 3 1 4096 52 84 5 52 32 1 40 1 0
    (by decide) (by decide) (by decide) (by decide) (by decide) (by decide) (by decide)
    (by decide) (by decide) (by decide) (by decide) (by decide) (by decide)
